import Mathlib

/-!
Shallow embedding of the algorithmic core of the Pocky DEM pipeline
(`src/DEM/compute_dem_weights.py`, `src/DEM/dem_weighted.py`,
`src/DEM/compute_dem_linear.py`, `src/DEM/dem_weighted_response.py`,
`src/DEM/test_response_ratio.py`).

Numbers are modelled by exact rationals; the two transcendental float
constants the weight solver uses (`math.log(10.0)` and `10.0 ** x`) are
passed in as explicit parameters `ln10 : ℚ` and `tenPow : ℚ → ℚ`, so every
theorem below is proved for every possible value of those primitives.
-/

namespace Pocky

/-- 1-D numpy float arrays are modelled as lists of rationals. -/
abbrev Vec := List ℚ

/-- `np.dot` / `@` on 1-D arrays. -/
def dot (u v : Vec) : ℚ := (List.zipWith (· * ·) u v).sum

/-- Scalar multiple of an array, `c * v`. -/
def smul (c : ℚ) (v : Vec) : Vec := v.map (fun x => c * x)

/-- Elementwise division of an array by a scalar, `v / c`. -/
def divv (v : Vec) (c : ℚ) : Vec := v.map (fun x => x / c)

/-- Elementwise sum of two arrays. -/
def addv (u v : Vec) : Vec := List.zipWith (· + ·) u v

/-- Elementwise difference of two arrays. -/
def subv (u v : Vec) : Vec := List.zipWith (· - ·) u v

/-- Elementwise product of two arrays. -/
def mulv (u v : Vec) : Vec := List.zipWith (· * ·) u v

/-- One segment-scanning step of `np.interp`: given the remaining grid
points (paired with their ordinates) and the previous grid point, return
the linearly interpolated value at `x`, clamping to the last ordinate
beyond the grid.  A degenerate duplicated abscissa (where numpy's float
formula would divide by zero) is mapped to the right endpoint's ordinate;
no claim below depends on that case. -/
def interpSeg (x : ℚ) : List (ℚ × ℚ) → ℚ × ℚ → ℚ
  | [], prev => prev.2
  | (x1, f1) :: rest, prev =>
    if x ≤ x1 then
      if x1 = prev.1 then f1
      else prev.2 + (f1 - prev.2) * (x - prev.1) / (x1 - prev.1)
    else interpSeg x rest (x1, f1)

/-- `np.interp x xp fp` for an ascending grid `xp`: linear interpolation,
clamped to the first/last ordinate outside the grid.  (numpy raises on an
empty grid; the `0` returned here is never relied on by any theorem.) -/
def interp (x : ℚ) (xp fp : Vec) : ℚ :=
  match xp, fp with
  | x0 :: xs, f0 :: fs => if x ≤ x0 then f0 else interpSeg x (xs.zip fs) (x0, f0)
  | _, _ => 0

/-- `np.diff` on a 1-D array. -/
def diffs : Vec → Vec
  | a :: b :: rest => (b - a) :: diffs (b :: rest)
  | _ => []

/-- `np.median` on a 1-D array: sort, take the middle element (odd length)
or the mean of the two middle elements (even length). -/
def median (l : Vec) : ℚ :=
  let s := l.insertionSort (· ≤ ·)
  let n := l.length
  if n = 0 then 0
  else if n % 2 = 1 then s.getD (n / 2) 0
  else (s.getD (n / 2 - 1) 0 + s.getD (n / 2) 0) / 2

/-- Remove column `j` from every row of a matrix (given as a row list). -/
def dropCol (j : ℕ) (rows : List Vec) : List Vec := rows.map (fun r => r.eraseIdx j)

/-- Laplace expansion along the first row, with the recursion driven by a
row-count fuel so the definition is structural (the fuel always equals the
number of rows). -/
def detAux : ℕ → List Vec → ℚ
  | _, [] => 1
  | 0, _ :: _ => 1
  | n + 1, r :: rs =>
    (List.range r.length).foldl
      (fun acc j =>
        acc + (if j % 2 = 0 then (1 : ℚ) else -1) * r.getD j 0 * detAux n (dropCol j rs))
      0

/-- Exact determinant of a square matrix by Laplace expansion along the
first row. -/
def detL (rows : List Vec) : ℚ := detAux rows.length rows

/-- Replace column `j` of a square matrix by the right-hand side vector
(for Cramer's rule). -/
def replaceCol (j : ℕ) (b : Vec) (rows : List Vec) : List Vec :=
  List.zipWith (fun r bi => r.set j bi) rows b

/-- Exact-arithmetic model of `np.linalg.solve`: the unique solution of
`a @ x = b` via Cramer's rule, or `none` when the matrix is exactly
singular (numpy raises `LinAlgError` there). -/
def solveLin (a : List Vec) (b : Vec) : Option Vec :=
  let d := detL a
  if d = 0 then none
  else some ((List.range a.length).map (fun j => detL (replaceCol j b a) / d))

/-- The persisted response table: `logt` axis, integer channel list and the
response matrix stored row-per-temperature-sample
(`load_response_table` in `compute_dem_weights.py`). -/
structure ResponseTable where
  logt : Vec
  channels : List ℤ
  response : List Vec

/-- Column `j` of the response matrix, `response[:, j]`. -/
def colOf (tbl : ResponseTable) (j : ℕ) : Vec :=
  tbl.response.map (fun row => row.getD j 0)

/-- Index of each selected channel in the table,
`int(np.where(channels == ch)[0][0])`, failing like the source's
`ValueError` when a requested channel is absent. -/
def chanIdx (tbl : ResponseTable) (selected : List ℤ) : Except String (List ℕ) :=
  selected.mapM (fun ch =>
    match tbl.channels.findIdx? (fun c => c == ch) with
    | some j => Except.ok j
    | none => Except.error "Channel not in response table.")

/-- The sampled response vector
`r = [np.interp(logt0, logt, response[:, j]) for j in idx]`. -/
def sampleR (tbl : ResponseTable) (idx : List ℕ) (logt0 : ℚ) : Vec :=
  idx.map (fun j => interp logt0 tbl.logt (colOf tbl j))

/-- Effective bin width: the explicit `delta_logt` when positive, otherwise
the median grid spacing `np.median(np.diff(logt))`. -/
def deltaEff (tbl : ResponseTable) (delta_logt : ℚ) : ℚ :=
  if delta_logt ≤ 0 then median (diffs tbl.logt) else delta_logt

/-- The physical bin-width conversion factor `scale` of `derive_weights`:
`delta` per-logT, `ln(10) * 10**logt0 * delta` per-T. -/
def scaleEff (ln10 : ℚ) (tenPow : ℚ → ℚ) (tbl : ResponseTable)
    (logt0 delta_logt : ℚ) (dem_per_logt : Bool) : ℚ :=
  if dem_per_logt then deltaEff tbl delta_logt
  else ln10 * tenPow logt0 * deltaEff tbl delta_logt

/-- The quadrature weights `quad` of the ridge branch of `derive_weights`. -/
def quadVec (ln10 : ℚ) (tenPow : ℚ → ℚ) (tbl : ResponseTable) (delta : ℚ)
    (dem_per_logt : Bool) : Vec :=
  if dem_per_logt then tbl.logt.map (fun _ => delta)
  else tbl.logt.map (fun t => ln10 * tenPow t * delta)

/-- The weighted Gram matrix `rr = (rmat * quad[None, :]) @ rmat.T`, where
`cols` are the selected response columns. -/
def ridgeGram (quad : Vec) (cols : List Vec) : List Vec :=
  cols.map (fun ca => cols.map (fun cb => dot (mulv quad ca) cb))

/-- `np.trace` of a square matrix given as a row list. -/
def traceL (rows : List Vec) : ℚ :=
  (List.range rows.length).foldl (fun acc i => acc + (rows.getD i []).getD i 0) 0

/-- `rows + lam * np.eye(n)`. -/
def addDiag (lam : ℚ) (rows : List Vec) : List Vec :=
  (List.range rows.length).map (fun i =>
    (List.range ((rows.getD i []).length)).map (fun j =>
      (rows.getD i []).getD j 0 + if i = j then lam else 0))

/-- The ridge branch of `derive_weights`: form the weighted Gram matrix,
set `lam = ridge * trace / max(n_channels, 1)` and solve
`(rr + lam * I) w = r`. -/
def ridgeSolve (ln10 : ℚ) (tenPow : ℚ → ℚ) (tbl : ResponseTable) (idx : List ℕ)
    (delta : ℚ) (dem_per_logt : Bool) (ridge : ℚ) (r : Vec) : Option Vec :=
  let cols := idx.map (colOf tbl)
  let quad := quadVec ln10 tenPow tbl delta dem_per_logt
  let g := ridgeGram quad cols
  let lam := ridge * traceL g / ((max idx.length 1 : ℕ) : ℚ)
  solveLin (addDiag lam g) r

/-- `derive_weights` from `src/DEM/compute_dem_weights.py` (lines 154-201):
locate the selected channels, sample the response vector at `logt0`, infer
the bin width when unspecified, compute `scale`, produce the raw weight
vector from either the ridge-regularized system or the plain inversion
`r / (r @ r)`, and finally renormalize by `norm = scale * (w @ r)`
(this final renormalization sits after the `if ridge > 0` block in the
source and therefore applies to both branches). -/
def derive_weights (ln10 : ℚ) (tenPow : ℚ → ℚ) (tbl : ResponseTable) (selected : List ℤ)
    (logt0 delta_logt : ℚ) (dem_per_logt : Bool) (ridge : ℚ) :
    Except String (Vec × ℚ) :=
  match chanIdx tbl selected with
  | Except.error e => Except.error e
  | Except.ok idx =>
    let r := sampleR tbl idx logt0
    if delta_logt ≤ 0 ∧ tbl.logt.length < 2 then
      Except.error "Need at least 2 logT points to infer delta_logt."
    else
      let delta := deltaEff tbl delta_logt
      let scale := if dem_per_logt then delta else ln10 * tenPow logt0 * delta
      let wres : Except String Vec :=
        if 0 < ridge then
          match ridgeSolve ln10 tenPow tbl idx delta dem_per_logt ridge r with
          | none => Except.error "Singular matrix"
          | some w => Except.ok w
        else
          if dot r r = 0 then Except.error "Response vector is zero at this logT."
          else Except.ok (divv r (dot r r))
      match wres with
      | Except.error e => Except.error e
      | Except.ok w =>
        let norm := scale * dot w r
        if norm = 0 then Except.error "Normalization failed (w*r = 0)."
        else Except.ok (divv w norm, scale)

/-- Whether an `Except` computation ended in a raised error. -/
def isErr : Except String α → Bool
  | Except.error _ => true
  | Except.ok _ => false

/-- The per-channel ratio collection loop of `main` in
`compute_dem_weights.py` (lines 433-440): a missing ratio or a ratio `≤ 0`
raises at the point of computation. -/
def collect_ratios (ratio_map : ℤ → Option ℚ) : List ℤ → Except String (List ℚ)
  | [] => Except.ok []
  | ch :: rest =>
    match ratio_map ch with
    | none => Except.error "Missing ratio for channel."
    | some v =>
      if v ≤ 0 then Except.error "Invalid ratio for channel."
      else
        match collect_ratios ratio_map rest with
        | Except.error e => Except.error e
        | Except.ok vs => Except.ok (v :: vs)

/-! ### Helper lemmas about `dot` -/

theorem dot_divv : ∀ (u v : Vec) (c : ℚ), dot (divv u c) v = dot u v / c
  | [], v, c => by simp [dot, divv]
  | _ :: _, [], c => by simp [dot, divv]
  | a :: u, b :: v, c => by
    have ih := dot_divv u v c
    simp only [dot, divv, List.map_cons, List.zipWith_cons_cons, List.sum_cons] at ih ⊢
    rw [ih, div_mul_eq_mul_div, div_add_div_same]

theorem collect_ratios_err (rm : ℤ → Option ℚ) :
    ∀ sel : List ℤ, isErr (collect_ratios rm sel) = true ↔
      ∃ ch ∈ sel, rm ch = none ∨ ∃ v, rm ch = some v ∧ v ≤ 0 := by
  intro sel
  induction sel with
  | nil => simp [collect_ratios, isErr]
  | cons ch rest ih =>
    cases hrm : rm ch with
    | none =>
      simp only [collect_ratios, hrm, isErr]
      exact iff_of_true (by simp) ⟨ch, List.mem_cons_self _ _, Or.inl hrm⟩
    | some v =>
      by_cases hv : v ≤ 0
      · simp only [collect_ratios, hrm, if_pos hv, isErr]
        exact iff_of_true (by simp) ⟨ch, List.mem_cons_self _ _, Or.inr ⟨v, hrm, hv⟩⟩
      · cases hrest : collect_ratios rm rest with
        | error e =>
          rw [hrest] at ih
          simp only [isErr] at ih
          have hP := ih.mp (by simp)
          simp only [collect_ratios, hrm, if_neg hv, hrest, isErr]
          obtain ⟨c, hc, hb⟩ := hP
          exact iff_of_true (by simp) ⟨c, List.mem_cons_of_mem _ hc, hb⟩
        | ok vs =>
          rw [hrest] at ih
          simp only [isErr] at ih
          have hnP : ¬ ∃ c ∈ rest, rm c = none ∨ ∃ u, rm c = some u ∧ u ≤ 0 := by
            intro hP
            simpa using ih.mpr hP
          simp only [collect_ratios, hrm, if_neg hv, hrest, isErr]
          refine iff_of_false (by simp) ?_
          rintro ⟨c, hc, hb⟩
          rcases List.mem_cons.mp hc with rfl | hcm
          · rcases hb with hnone | ⟨u, hu, hule⟩
            · rw [hrm] at hnone; exact Option.noConfusion hnone
            · rw [hrm] at hu; injection hu with h; exact hv (h ▸ hule)
          · exact hnP ⟨c, hcm, hb⟩

/-- Claim C2: for every response table, channel subset and target at which the
non-ridge branch of `derive_weights` succeeds, the returned pair `(w, scale)`
satisfies `scale * dot w r = 1` exactly, where `r` is the sampled response
vector, and `scale` is the bin width in per-logT mode and
`ln(10) * 10**logt0 * delta` otherwise, with `delta` the explicit bin width or
the median grid spacing when unspecified. -/
theorem plain_weight_invariant (ln10 : ℚ) (tenPow : ℚ → ℚ) (tbl : ResponseTable)
    (selected : List ℤ) (logt0 delta_logt : ℚ) (dem_per_logt : Bool) (ridge : ℚ)
    (idx : List ℕ) (w : Vec) (scale : ℚ)
    (hridge : ridge ≤ 0)
    (hidx : chanIdx tbl selected = Except.ok idx)
    (hok : derive_weights ln10 tenPow tbl selected logt0 delta_logt dem_per_logt ridge
      = Except.ok (w, scale)) :
    scale * dot w (sampleR tbl idx logt0) = 1 ∧
      scale = scaleEff ln10 tenPow tbl logt0 delta_logt dem_per_logt := by
  simp only [derive_weights, hidx, not_lt.mpr hridge, if_false] at hok
  set r := sampleR tbl idx logt0 with hr
  by_cases hdel : delta_logt ≤ 0 ∧ tbl.logt.length < 2
  · rw [if_pos hdel] at hok; exact absurd hok (by simp)
  · rw [if_neg hdel] at hok
    by_cases hd : dot r r = 0
    · rw [if_pos hd] at hok; exact absurd hok (by simp)
    · simp only [if_neg hd] at hok
      rw [dot_divv, div_self hd, mul_one] at hok
      set s := if dem_per_logt then deltaEff tbl delta_logt
        else ln10 * tenPow logt0 * deltaEff tbl delta_logt with hs
      by_cases hz : s = 0
      · rw [if_pos hz] at hok; exact absurd hok (by simp)
      · rw [if_neg hz] at hok
        have hw : divv (divv r (dot r r)) s = w ∧ s = scale := by
          simpa using hok
        obtain ⟨hw1, hw2⟩ := hw
        subst hw2
        constructor
        · rw [← hw1, dot_divv, dot_divv, div_self hd, mul_one_div, div_self hz]
        · rw [hs, scaleEff]

/-- Claim C1 (amended): in ridge-regularized inversion (`ridge > 0`),
`derive_weights` solves the regularized system `(G + lam*I) w = r` with
`lam = ridge * trace(G) / n_channels`, and then — contrary to the original
claim — applies the same renormalization step as the plain branch: the
returned vector is that solution divided by `scale * (w_solve . r)`. -/
theorem ridge_branch_renormalization (ln10 : ℚ) (tenPow : ℚ → ℚ) (tbl : ResponseTable)
    (selected : List ℤ) (logt0 delta_logt : ℚ) (dem_per_logt : Bool) (ridge : ℚ)
    (idx : List ℕ) (w : Vec) (scale : ℚ)
    (hridge : 0 < ridge)
    (hidx : chanIdx tbl selected = Except.ok idx)
    (hok : derive_weights ln10 tenPow tbl selected logt0 delta_logt dem_per_logt ridge
      = Except.ok (w, scale)) :
    ∃ ws, ridgeSolve ln10 tenPow tbl idx (deltaEff tbl delta_logt) dem_per_logt ridge
        (sampleR tbl idx logt0) = some ws ∧
      scale * dot ws (sampleR tbl idx logt0) ≠ 0 ∧
      w = divv ws (scale * dot ws (sampleR tbl idx logt0)) ∧
      scale = scaleEff ln10 tenPow tbl logt0 delta_logt dem_per_logt := by
  simp only [derive_weights, hidx, if_pos hridge] at hok
  set r := sampleR tbl idx logt0 with hr
  by_cases hdel : delta_logt ≤ 0 ∧ tbl.logt.length < 2
  · rw [if_pos hdel] at hok; exact absurd hok (by simp)
  · rw [if_neg hdel] at hok
    cases hrs : ridgeSolve ln10 tenPow tbl idx (deltaEff tbl delta_logt) dem_per_logt ridge r with
    | none => rw [hrs] at hok; exact absurd hok (by simp)
    | some ws =>
      rw [hrs] at hok
      simp only [] at hok
      set s := if dem_per_logt then deltaEff tbl delta_logt
        else ln10 * tenPow logt0 * deltaEff tbl delta_logt with hs
      by_cases hz : s * dot ws r = 0
      · rw [if_pos hz] at hok; exact absurd hok (by simp)
      · rw [if_neg hz] at hok
        have hw : divv ws (s * dot ws r) = w ∧ s = scale := by simpa using hok
        obtain ⟨hw1, hw2⟩ := hw
        subst hw2
        exact ⟨ws, rfl, hz, hw1.symm, by rw [hs, scaleEff]⟩

/-- Claim C8: numerical-degeneracy conditions are fatal at the point of
computation.  Under the non-degenerate preconditions (all selected channels
present, bin width inferable, non-ridge mode), `derive_weights` raises an
error exactly when the sampled response vector satisfies `r . r = 0` or the
normalization product `scale * (w . r)` (which equals `scale` there) is zero;
and the ratio-correction collection loop of `main` raises an error exactly
when some selected channel has no ratio or a ratio `<= 0`. -/
theorem degeneracy_errors_fatal (ln10 : ℚ) (tenPow : ℚ → ℚ) (tbl : ResponseTable)
    (selected : List ℤ) (logt0 delta_logt : ℚ) (dem_per_logt : Bool) (ridge : ℚ)
    (idx : List ℕ)
    (hidx : chanIdx tbl selected = Except.ok idx)
    (hdel : ¬(delta_logt ≤ 0 ∧ tbl.logt.length < 2))
    (hridge : ridge ≤ 0) :
    (isErr (derive_weights ln10 tenPow tbl selected logt0 delta_logt dem_per_logt ridge) = true
      ↔ dot (sampleR tbl idx logt0) (sampleR tbl idx logt0) = 0
        ∨ scaleEff ln10 tenPow tbl logt0 delta_logt dem_per_logt = 0) ∧
    (∀ (rm : ℤ → Option ℚ) (sel : List ℤ),
      isErr (collect_ratios rm sel) = true ↔
        ∃ ch ∈ sel, rm ch = none ∨ ∃ v, rm ch = some v ∧ v ≤ 0) := by
  constructor
  · simp only [derive_weights, hidx, not_lt.mpr hridge, if_false, if_neg hdel]
    set r := sampleR tbl idx logt0 with hr
    by_cases hd : dot r r = 0
    · simp [hd, isErr]
    · simp only [if_neg hd]
      rw [dot_divv, div_self hd, mul_one]
      by_cases hz : scaleEff ln10 tenPow tbl logt0 delta_logt dem_per_logt = 0
      · rw [scaleEff] at hz
        simp [if_pos hz, isErr, hd, hz, scaleEff]
      · rw [scaleEff] at hz
        simp [if_neg hz, isErr, hd, hz, scaleEff]
  · exact collect_ratios_err


/-- Claim C1, counterexample to the original statement: on a concrete
one-channel table with `ridge = 1`, the regularized system's solution is
`[1/4]`, but `derive_weights` returns `[1]` — the solution renormalized by
`scale * (w . r) = 1/4` — so the ridge branch does *not* return the solution
of `(G + lam*I) w = r` directly. -/
theorem ridge_no_renormalization_counterexample :
    chanIdx ⟨[1, 2], [94], [[1], [1]]⟩ [94] = Except.ok [0] ∧
    ridgeSolve 1 id ⟨[1, 2], [94], [[1], [1]]⟩ [0] (deltaEff ⟨[1, 2], [94], [[1], [1]]⟩ 1) true 1
      (sampleR ⟨[1, 2], [94], [[1], [1]]⟩ [0] 1) = some [1 / 4] ∧
    derive_weights 1 id ⟨[1, 2], [94], [[1], [1]]⟩ [94] 1 1 true 1 = Except.ok ([1], 1) ∧
    ([(1 : ℚ)] : Vec) ≠ [1 / 4] := by
  refine ⟨?_, ?_, ?_, ?_⟩ <;>
    norm_num [derive_weights, chanIdx, sampleR, interp, interpSeg, colOf, deltaEff, dot, divv,
      ridgeSolve, quadVec, ridgeGram, traceL, addDiag, solveLin, detL, detAux, dropCol, replaceCol,
      mulv, List.findIdx?, List.mapM, List.mapM.loop, List.range_succ]

/-- Witness for the amended claim C1 at a concrete input. -/
theorem ridge_branch_renormalization_witness :
    (0 : ℚ) < 1 ∧
    ∃ ws, ridgeSolve 1 id ⟨[1, 2], [94], [[1], [1]]⟩ [0] (deltaEff ⟨[1, 2], [94], [[1], [1]]⟩ 1)
        true 1 (sampleR ⟨[1, 2], [94], [[1], [1]]⟩ [0] 1) = some ws ∧
      1 * dot ws (sampleR ⟨[1, 2], [94], [[1], [1]]⟩ [0] 1) ≠ 0 ∧
      ([(1 : ℚ)] : Vec) = divv ws (1 * dot ws (sampleR ⟨[1, 2], [94], [[1], [1]]⟩ [0] 1)) ∧
      (1 : ℚ) = scaleEff 1 id ⟨[1, 2], [94], [[1], [1]]⟩ 1 1 true :=
  ⟨by norm_num,
    ridge_branch_renormalization 1 id ⟨[1, 2], [94], [[1], [1]]⟩ [94] 1 1 true 1 [0] [1] 1
      (by norm_num)
      (by norm_num [chanIdx, List.findIdx?, List.mapM, List.mapM.loop])
      (by norm_num [derive_weights, chanIdx, sampleR, interp, interpSeg, colOf, deltaEff, dot,
        divv, ridgeSolve, quadVec, ridgeGram, traceL, addDiag, solveLin, detL, detAux, dropCol,
        replaceCol, mulv, List.findIdx?, List.mapM, List.mapM.loop, List.range_succ])⟩

/-- Witness for claim C2 at a concrete input. -/
theorem plain_weight_invariant_witness :
    (0 : ℚ) ≤ 0 ∧
    1 * dot [(1 : ℚ) / 2] (sampleR ⟨[1, 2], [94], [[2], [4]]⟩ [0] 1) = 1 ∧
    (1 : ℚ) = scaleEff 1 id ⟨[1, 2], [94], [[2], [4]]⟩ 1 1 true :=
  ⟨le_refl 0,
    plain_weight_invariant 1 id ⟨[1, 2], [94], [[2], [4]]⟩ [94] 1 1 true 0 [0] [(1 : ℚ) / 2] 1
      (le_refl 0)
      (by norm_num [chanIdx, List.findIdx?, List.mapM, List.mapM.loop])
      (by norm_num [derive_weights, chanIdx, sampleR, interp, interpSeg, colOf, deltaEff, dot,
        divv, List.findIdx?, List.mapM, List.mapM.loop])⟩

/-- Witness for claim C8 at a concrete input (a table whose response column
is identically zero, so the plain branch raises the zero-response error). -/
theorem degeneracy_errors_fatal_witness :
    chanIdx ⟨[1, 2], [94], [[0], [0]]⟩ [94] = Except.ok [0] ∧
    ¬((1 : ℚ) ≤ 0 ∧ (ResponseTable.mk [1, 2] [94] [[0], [0]]).logt.length < 2) ∧
    (0 : ℚ) ≤ 0 ∧
    ((isErr (derive_weights 1 id ⟨[1, 2], [94], [[0], [0]]⟩ [94] 1 1 true 0) = true
        ↔ dot (sampleR ⟨[1, 2], [94], [[0], [0]]⟩ [0] 1) (sampleR ⟨[1, 2], [94], [[0], [0]]⟩ [0] 1) = 0
          ∨ scaleEff 1 id ⟨[1, 2], [94], [[0], [0]]⟩ 1 1 true = 0) ∧
      (∀ (rm : ℤ → Option ℚ) (sel : List ℤ),
        isErr (collect_ratios rm sel) = true ↔
          ∃ ch ∈ sel, rm ch = none ∨ ∃ v, rm ch = some v ∧ v ≤ 0)) :=
  ⟨by norm_num [chanIdx, List.findIdx?, List.mapM, List.mapM.loop],
    by norm_num,
    le_refl 0,
    degeneracy_errors_fatal 1 id ⟨[1, 2], [94], [[0], [0]]⟩ [94] 1 1 true 0 [0]
      (by norm_num [chanIdx, List.findIdx?, List.mapM, List.mapM.loop])
      (by norm_num)
      (le_refl 0)⟩


/-- `np.maximum(0.0, w)`. -/
def clampNonneg (v : Vec) : Vec := v.map (fun x => max 0 x)

/-- Matrix-vector product `m @ v` for a row-list matrix. -/
def matVec (m : List Vec) (v : Vec) : Vec := m.map (fun row => dot row v)

/-- The projected-gradient loop of `nnls_ridge`:
`grad = a.T @ (a @ w - y) + lam * w`, `w <- max(0, w - step * grad)`,
stopping early when the termination test fires (the loop then returns the
just-computed iterate) or when the iteration budget runs out. -/
def nnlsIter (a aT : List Vec) (y : Vec) (lam step : ℚ) (stop : Vec → Vec → Bool) :
    ℕ → Vec → Vec
  | 0, w => w
  | k + 1, w =>
    let grad := addv (matVec aT (subv (matVec a w) y)) (smul lam w)
    let wNew := clampNonneg (subv w (smul step grad))
    if stop wNew w then wNew else nnlsIter a aT y lam step stop k wNew

/-- `nnls_ridge` from `src/DEM/compute_dem_weights.py` (lines 315-340).
The numpy primitives with no exact rational counterpart are passed as
parameters: `lstsq` stands for the unconstrained least-squares start
`np.linalg.lstsq(a, y)`, `norm2sq` for the squared spectral norm
`np.linalg.norm(a, 2) ** 2`, and `stop` for the Euclidean-norm termination
test `norm(w_new - w) <= tol * (norm(w) + 1e-12)` (all involve irrational
square roots); every theorem below holds for every value of these
parameters. -/
def nnls_ridge (lstsq : List Vec → Vec → Vec) (norm2sq : List Vec → ℚ)
    (stop : Vec → Vec → Bool) (a : List Vec) (y : Vec) (lam : ℚ)
    (maxIter : ℕ := 1000) : Vec :=
  if a.length * (a.headD []).length = 0 then List.replicate (a.headD []).length 0
  else
    let w0 := clampNonneg (lstsq a y)
    let l := norm2sq a + lam
    if l ≤ 0 then w0
    else nnlsIter a a.transpose y lam (1 / l) stop maxIter w0

theorem clampNonneg_mem {v : Vec} {x : ℚ} (hx : x ∈ clampNonneg v) : 0 ≤ x := by
  obtain ⟨y, _, rfl⟩ := List.mem_map.mp hx
  exact le_max_left 0 y

theorem nnlsIter_nonneg (a aT : List Vec) (y : Vec) (lam step : ℚ)
    (stop : Vec → Vec → Bool) :
    ∀ (k : ℕ) (w : Vec), (∀ x ∈ w, 0 ≤ x) →
      ∀ x ∈ nnlsIter a aT y lam step stop k w, 0 ≤ x := by
  intro k
  induction k with
  | zero => intro w hw x hx; exact hw x hx
  | succ k ih =>
    intro w hw x hx
    simp only [nnlsIter] at hx
    by_cases hs : stop (clampNonneg (subv w (smul step
        (addv (matVec aT (subv (matVec a w) y)) (smul lam w))))) w
    · rw [if_pos hs] at hx
      exact clampNonneg_mem hx
    · rw [if_neg hs] at hx
      exact ih _ (fun z hz => clampNonneg_mem hz) x hx

/-- Claim C6: for every input matrix, target vector and ridge strength
`lam >= 0` — in fact for every value of the `lstsq`, spectral-norm and
stopping-test primitives — the weight vector returned by the
projected-gradient NNLS solver `nnls_ridge` is elementwise nonnegative:
the initial least-squares solution is clamped to zero and every later
iterate is produced by `max(0, .)`. -/
theorem nnls_ridge_nonneg (lstsq : List Vec → Vec → Vec) (norm2sq : List Vec → ℚ)
    (stop : Vec → Vec → Bool) (a : List Vec) (y : Vec) (lam : ℚ) (maxIter : ℕ)
    (hlam : 0 ≤ lam) :
    ∀ x ∈ nnls_ridge lstsq norm2sq stop a y lam maxIter, 0 ≤ x := by
  intro x hx
  simp only [nnls_ridge] at hx
  by_cases h0 : a.length * (a.headD []).length = 0
  · rw [if_pos h0] at hx
    rw [List.eq_of_mem_replicate hx]
  · rw [if_neg h0] at hx
    by_cases hl : norm2sq a + lam ≤ 0
    · rw [if_pos hl] at hx
      exact clampNonneg_mem hx
    · rw [if_neg hl] at hx
      exact nnlsIter_nonneg a a.transpose y lam (1 / (norm2sq a + lam)) stop maxIter
        (clampNonneg (lstsq a y)) (fun z hz => clampNonneg_mem hz) x hx

/-- Witness for claim C6 at a concrete input (an `lstsq` oracle returning a
negative entry, which the solver clamps away). -/
theorem nnls_ridge_nonneg_witness :
    (0 : ℚ) ≤ 0 ∧
    ∀ x ∈ nnls_ridge (fun _ _ => [-3, 2]) (fun _ => 1) (fun _ _ => false)
        [[1, 0], [0, 1]] [1, -1] 0 2, 0 ≤ x :=
  ⟨le_refl 0,
    nnls_ridge_nonneg (fun _ _ => [-3, 2]) (fun _ => 1) (fun _ _ => false)
      [[1, 0], [0, 1]] [1, -1] 0 2 (le_refl 0)⟩


/-- Python's `bisect_left`, the literal binary search loop, driven by a fuel
that strictly exceeds the number of iterations (the interval shrinks on
every pass, so `length + 1` is always enough). -/
def bisectLoop (a : List ℚ) (x : ℚ) : ℕ → ℕ → ℕ → ℕ
  | 0, lo, _ => lo
  | fuel + 1, lo, hi =>
    if lo < hi then
      let mid := (lo + hi) / 2
      if a.getD mid 0 < x then bisectLoop a x fuel (mid + 1) hi
      else bisectLoop a x fuel lo mid
    else lo

/-- `bisect.bisect_left`: the insertion index of `x` in the sorted list `a`. -/
def bisect_left (a : List ℚ) (x : ℚ) : ℕ := bisectLoop a x (a.length + 1) 0 a.length

/-- Python's `min` over a list with a key: the *first* element achieving the
minimal key (a later element replaces the current best only when strictly
smaller). -/
def stableMin (f : α → ℚ) : List α → Option α
  | [] => none
  | a :: rest =>
    match stableMin f rest with
    | none => some a
    | some b => if f b < f a then some b else some a

/-- The candidate list built by `nearest_file`: the element at the insertion
index (when it exists) followed by the element just before it (when it
exists).  Timestamps are rational seconds; file paths are opaque
natural-number handles. -/
def candList (target : ℚ) (times : List ℚ) (paths : List ℕ) : List (ℚ × ℕ) :=
  let idx := bisect_left times target
  (if idx < times.length then [(times.getD idx 0, paths.getD idx 0)] else []) ++
    (if 0 < idx then [(times.getD (idx - 1) 0, paths.getD (idx - 1) 0)] else [])

/-- `nearest_file` from `src/DEM/dem_weighted.py` (lines 104-115): `None` on
an empty index, otherwise the candidate minimizing `|time - target|`, with
Python's stable `min` evaluating the insertion-index candidate first. -/
def nearest_file (target : ℚ) (times : List ℚ) (paths : List ℕ) : Option (ℚ × ℕ) :=
  if times.isEmpty then none
  else stableMin (fun c => |c.1 - target|) (candList target times paths)

/-- The per-reference-time matching loop of `build_dem_for_event`
(`src/DEM/dem_weighted.py` lines 161-179): walk the requested wavelengths,
look up each channel's `(times, paths)` index, take the nearest file, and
reset the whole match dict to empty (abandoning the frame) as soon as a
channel is missing, has no candidate, or its best candidate is farther than
`tolerance`; otherwise record the selected path for that wavelength. -/
def matchLoop (lookup : ℕ → Option (List ℚ × List ℕ)) (tol ref : ℚ) :
    List ℕ → List (ℕ × ℕ) → List (ℕ × ℕ)
  | [], matched => matched
  | w :: rest, matched =>
    match lookup w with
    | none => []
    | some (times, paths) =>
      match nearest_file ref times paths with
      | none => []
      | some (t, p) =>
        if tol < |t - ref| then []
        else matchLoop lookup tol ref rest (matched ++ [(w, p)])

/-- The match set produced for one reference time (empty = frame dropped). -/
def match_frame (lookup : ℕ → Option (List ℚ × List ℕ)) (tol ref : ℚ)
    (ws : List ℕ) : List (ℕ × ℕ) := matchLoop lookup tol ref ws []

/-- A required channel fails for a reference time: missing index, no
candidate, or nearest candidate strictly beyond the tolerance. -/
def channelFails (lookup : ℕ → Option (List ℚ × List ℕ)) (tol ref : ℚ)
    (w : ℕ) : Bool :=
  match lookup w with
  | none => true
  | some (times, paths) =>
    match nearest_file ref times paths with
    | none => true
    | some (t, _) => decide (tol < |t - ref|)

theorem matchLoop_spec (lookup : ℕ → Option (List ℚ × List ℕ)) (tol ref : ℚ) :
    ∀ (ws : List ℕ) (acc : List (ℕ × ℕ)),
      matchLoop lookup tol ref ws acc = [] ∨
      ∃ L, matchLoop lookup tol ref ws acc = acc ++ L ∧
        (∀ w ∈ ws, ∃ p, (w, p) ∈ L) ∧
        (∀ w p, (w, p) ∈ L → ∃ times paths t, lookup w = some (times, paths) ∧
          nearest_file ref times paths = some (t, p) ∧ |t - ref| ≤ tol) := by
  intro ws
  induction ws with
  | nil =>
    intro acc
    exact Or.inr ⟨[], by simp [matchLoop], by simp, by simp⟩
  | cons w rest ih =>
    intro acc
    cases hlu : lookup w with
    | none => exact Or.inl (by simp [matchLoop, hlu])
    | some pair =>
      obtain ⟨times, paths⟩ := pair
      cases hnf : nearest_file ref times paths with
      | none => exact Or.inl (by simp [matchLoop, hlu, hnf])
      | some tp =>
        obtain ⟨t, p⟩ := tp
        by_cases htol : tol < |t - ref|
        · exact Or.inl (by simp [matchLoop, hlu, hnf, if_pos htol])
        · have hstep : matchLoop lookup tol ref (w :: rest) acc
              = matchLoop lookup tol ref rest (acc ++ [(w, p)]) := by
            simp [matchLoop, hlu, hnf, if_neg htol]
          rcases ih (acc ++ [(w, p)]) with hnil | ⟨L, hEq, hAll, hGood⟩
          · exact Or.inl (hstep.trans hnil)
          · refine Or.inr ⟨(w, p) :: L, ?_, ?_, ?_⟩
            · rw [hstep, hEq, List.append_assoc]
              rfl
            · intro w' hw'
              rcases List.mem_cons.mp hw' with rfl | hwr
              · exact ⟨p, List.mem_cons_self _ _⟩
              · obtain ⟨p', hp'⟩ := hAll w' hwr
                exact ⟨p', List.mem_cons_of_mem _ hp'⟩
            · intro w' p' hmem
              rcases List.mem_cons.mp hmem with heq | hmr
              · rw [Prod.mk.injEq] at heq
                obtain ⟨rfl, rfl⟩ := heq
                exact ⟨times, paths, t, hlu, hnf, not_lt.mp htol⟩
              · exact hGood w' p' hmr

theorem matchLoop_fails (lookup : ℕ → Option (List ℚ × List ℕ)) (tol ref : ℚ) :
    ∀ (ws : List ℕ) (acc : List (ℕ × ℕ)),
      (∃ w ∈ ws, channelFails lookup tol ref w = true) →
      matchLoop lookup tol ref ws acc = [] := by
  intro ws
  induction ws with
  | nil => intro acc h; obtain ⟨w, hw, _⟩ := h; exact absurd hw (List.not_mem_nil w)
  | cons w rest ih =>
    intro acc h
    cases hlu : lookup w with
    | none => simp [matchLoop, hlu]
    | some pair =>
      obtain ⟨times, paths⟩ := pair
      cases hnf : nearest_file ref times paths with
      | none => simp [matchLoop, hlu, hnf]
      | some tp =>
        obtain ⟨t, p⟩ := tp
        by_cases htol : tol < |t - ref|
        · simp [matchLoop, hlu, hnf, if_pos htol]
        · have hstep : matchLoop lookup tol ref (w :: rest) acc
              = matchLoop lookup tol ref rest (acc ++ [(w, p)]) := by
            simp [matchLoop, hlu, hnf, if_neg htol]
          obtain ⟨w', hw', hf⟩ := h
          rcases List.mem_cons.mp hw' with rfl | hwr
          · simp only [channelFails, hlu, hnf] at hf
            exact absurd (of_decide_eq_true hf) htol
          · exact hstep.trans (ih _ ⟨w', hwr, hf⟩)

/-- Claim C3: the per-frame match result is all-or-nothing.  A nonempty
match set contains an entry for every required channel; every recorded
entry comes from the channel's nearest candidate with `|t - ref| <=
tolerance`; and if any required channel fails (missing index, no candidate,
or best candidate beyond tolerance) the frame's match set is empty — no
partial mapping is ever produced. -/
theorem match_all_or_nothing (lookup : ℕ → Option (List ℚ × List ℕ))
    (tol ref : ℚ) (ws : List ℕ) :
    (match_frame lookup tol ref ws ≠ [] →
      ∀ w ∈ ws, ∃ p, (w, p) ∈ match_frame lookup tol ref ws) ∧
    (∀ w p, (w, p) ∈ match_frame lookup tol ref ws →
      ∃ times paths t, lookup w = some (times, paths) ∧
        nearest_file ref times paths = some (t, p) ∧ |t - ref| ≤ tol) ∧
    ((∃ w ∈ ws, channelFails lookup tol ref w = true) →
      match_frame lookup tol ref ws = []) := by
  refine ⟨?_, ?_, ?_⟩
  · intro hne w hw
    rcases matchLoop_spec lookup tol ref ws [] with hnil | ⟨L, hEq, hAll, _⟩
    · exact absurd hnil hne
    · obtain ⟨p, hp⟩ := hAll w hw
      refine ⟨p, ?_⟩
      rw [match_frame, hEq]
      simpa using hp
  · intro w p hmem
    rcases matchLoop_spec lookup tol ref ws [] with hnil | ⟨L, hEq, _, hGood⟩
    · rw [match_frame, hnil] at hmem
      exact absurd hmem (List.not_mem_nil _)
    · rw [match_frame, hEq] at hmem
      exact hGood w p (by simpa using hmem)
  · exact matchLoop_fails lookup tol ref ws []

/-- Witness for claim C3 at concrete inputs: a complete two-channel match,
and a failing channel (whose candidate is 6 s away under a 5 s tolerance)
emptying the frame. -/
theorem match_all_or_nothing_witness :
    (match_frame (fun _ => some ([0, 12], [3, 4])) 5 3 [7, 8] = [(7, 3), (8, 3)] ∧
      (∃ p, (7, p) ∈ match_frame (fun _ => some ([0, 12], [3, 4])) 5 3 [7, 8])) ∧
    ((∃ w ∈ [7], channelFails (fun _ => some ([0, 12], [3, 4])) 5 6 w = true) ∧
      match_frame (fun _ => some ([0, 12], [3, 4])) 5 6 [7] = []) := by
  have h1 : match_frame (fun _ => some ([(0:ℚ), 12], [3, 4])) 5 3 [7, 8] = [(7, 3), (8, 3)] := by
    norm_num [match_frame, matchLoop, nearest_file, candList, stableMin, bisect_left, bisectLoop]
  have h2 : (∃ w ∈ [7], channelFails (fun _ => some ([(0:ℚ), 12], [3, 4])) 5 6 w = true) := by
    refine ⟨7, by norm_num, ?_⟩
    norm_num [channelFails, nearest_file, candList, stableMin, bisect_left, bisectLoop]
  exact ⟨⟨h1, (match_all_or_nothing (fun _ => some ([0, 12], [3, 4])) 5 3 [7, 8]).1
      (by rw [h1]; simp) 7 (by norm_num)⟩,
    ⟨h2, (match_all_or_nothing (fun _ => some ([0, 12], [3, 4])) 5 6 [7]).2.2 h2⟩⟩

theorem stableMin_nil {α : Type} (f : α → ℚ) : stableMin f [] = none := rfl

theorem stableMin_cons {α : Type} (f : α → ℚ) (a : α) (l : List α) :
    stableMin f (a :: l) = match stableMin f l with
      | none => some a
      | some b => if f b < f a then some b else some a := rfl

theorem stableMin_spec {α : Type} (f : α → ℚ) :
    ∀ l : List α, l ≠ [] → ∃ c, stableMin f l = some c ∧ c ∈ l ∧ ∀ d ∈ l, f c ≤ f d
  | [], h => absurd rfl h
  | [a], _ =>
    ⟨a, by simp [stableMin], List.mem_cons_self _ _, by
      intro d hd
      rcases List.mem_cons.mp hd with rfl | hd'
      · exact le_refl _
      · exact absurd hd' (List.not_mem_nil d)⟩
  | a :: b :: rest, _ => by
    obtain ⟨c, hc, hcm, hcmin⟩ := stableMin_spec f (b :: rest) (List.cons_ne_nil _ _)
    by_cases hlt : f c < f a
    · refine ⟨c, ?_, List.mem_cons_of_mem _ hcm, ?_⟩
      · rw [stableMin_cons, hc]; simp [hlt]
      · intro d hd
        rcases List.mem_cons.mp hd with rfl | hd'
        · exact le_of_lt hlt
        · exact hcmin d hd'
    · refine ⟨a, ?_, List.mem_cons_self _ _, ?_⟩
      · rw [stableMin_cons, hc]; simp [hlt]
      · intro d hd
        rcases List.mem_cons.mp hd with rfl | hd'
        · exact le_refl _
        · exact le_trans (not_lt.mp hlt) (hcmin d hd')

theorem candList_ne_nil (target : ℚ) (times : List ℚ) (paths : List ℕ)
    (hne : times ≠ []) : candList target times paths ≠ [] := by
  rw [candList]
  by_cases h1 : bisect_left times target < times.length
  · simp [if_pos h1]
  · have hlen : 0 < times.length := List.length_pos.mpr hne
    have h0 : 0 < bisect_left times target := lt_of_lt_of_le hlen (not_lt.mp h1)
    simp [if_neg h1, if_pos h0]

/-- Claim C4: for a sorted time index, `nearest_file` returns a candidate
drawn from exactly the pool {element at the insertion index, element just
before it} (each included when it exists), minimizing `|time - target|`
over that pool; and when both candidates are equidistant from the target it
selects the one at the insertion index (the at-or-after-target element),
because the candidates are evaluated in that fixed order under a stable
minimum. -/
theorem nearest_file_spec (target : ℚ) (times : List ℚ) (paths : List ℕ)
    (hsorted : times.Sorted (· ≤ ·)) (hlen : times.length = paths.length)
    (hne : times ≠ []) :
    ∃ c, nearest_file target times paths = some c ∧
      c ∈ candList target times paths ∧
      (∀ d ∈ candList target times paths, |c.1 - target| ≤ |d.1 - target|) ∧
      (bisect_left times target < times.length → 0 < bisect_left times target →
        |times.getD (bisect_left times target) 0 - target|
            = |times.getD (bisect_left times target - 1) 0 - target| →
        c = (times.getD (bisect_left times target) 0,
          paths.getD (bisect_left times target) 0)) := by
  obtain ⟨c, hc, hcm, hcmin⟩ :=
    stableMin_spec (fun c : ℚ × ℕ => |c.1 - target|)
      (candList target times paths) (candList_ne_nil target times paths hne)
  have hnf : nearest_file target times paths = some c := by
    rw [nearest_file, if_neg (by simpa [List.isEmpty_iff] using hne)]
    exact hc
  refine ⟨c, hnf, hcm, hcmin, ?_⟩
  intro h1 h0 htie
  have hcand : candList target times paths =
      [(times.getD (bisect_left times target) 0, paths.getD (bisect_left times target) 0),
        (times.getD (bisect_left times target - 1) 0,
          paths.getD (bisect_left times target - 1) 0)] := by
    rw [candList]
    simp [if_pos h1, if_pos h0]
  have hnlt : ¬ |times.getD (bisect_left times target - 1) 0 - target|
      < |times.getD (bisect_left times target) 0 - target| := by
    rw [htie]
    exact lt_irrefl _
  rw [hcand] at hc
  simp only [stableMin_cons, stableMin_nil] at hc
  rw [if_neg hnlt] at hc
  exact (Option.some_inj.mp hc).symm

/-- Witness for claim C4 at a concrete input: target time 1 between grid
times 0 and 2 (an exact tie), where the insertion-index element 2 is
selected. -/
theorem nearest_file_spec_witness :
    List.Sorted (· ≤ ·) [(0 : ℚ), 2] ∧ [(0 : ℚ), 2].length = [5, 6].length ∧
      ([(0 : ℚ), 2] ≠ []) ∧
    (∃ c, nearest_file 1 [0, 2] [5, 6] = some c ∧
      c ∈ candList 1 [0, 2] [5, 6] ∧
      (∀ d ∈ candList 1 [0, 2] [5, 6], |c.1 - 1| ≤ |d.1 - 1|) ∧
      (bisect_left [0, 2] 1 < [(0 : ℚ), 2].length → 0 < bisect_left [0, 2] 1 →
        |[(0 : ℚ), 2].getD (bisect_left [0, 2] 1) 0 - 1|
            = |[(0 : ℚ), 2].getD (bisect_left [0, 2] 1 - 1) 0 - 1| →
        c = ([(0 : ℚ), 2].getD (bisect_left [0, 2] 1) 0,
          [5, 6].getD (bisect_left [0, 2] 1) 0))) :=
  ⟨by norm_num [List.sorted_cons], by norm_num, by simp,
    nearest_file_spec 1 [0, 2] [5, 6] (by norm_num [List.sorted_cons]) (by norm_num)
      (by simp)⟩

/-- Claim C5, counterexample to the original statement: with tolerance `-1`,
a candidate whose time delta is exactly zero is still rejected — the guard
compares `|delta| > tolerance` and `0 > -1` — so the frame's match set is
empty where the claim says the zero-delta candidate always qualifies. -/
theorem zero_delta_negative_tolerance_counterexample :
    nearest_file 5 [5] [0] = some (5, 0) ∧
    match_frame (fun _ => some ([5], [0])) (-1) 5 [7] = [] := by
  constructor <;>
    norm_num [match_frame, matchLoop, nearest_file, candList, stableMin, bisect_left, bisectLoop]

/-- Claim C5 (amended): for every non-positive tolerance, any entry of a
produced match set comes from a candidate whose time equals the reference
time exactly (zero delta); and a candidate with zero delta qualifies iff
the tolerance is exactly zero — under a strictly negative tolerance even a
zero-delta candidate is rejected. -/
theorem nonpositive_tolerance_exact_match (lookup : ℕ → Option (List ℚ × List ℕ))
    (tol ref : ℚ) (htol : tol ≤ 0) :
    (∀ ws w p, (w, p) ∈ match_frame lookup tol ref ws →
      ∃ times paths, lookup w = some (times, paths) ∧
        nearest_file ref times paths = some (ref, p)) ∧
    (∀ w p : ℕ, match_frame (fun _ => some ([ref], [p])) tol ref [w] ≠ [] ↔ tol = 0) := by
  constructor
  · intro ws w p hmem
    rcases matchLoop_spec lookup tol ref ws [] with hnil | ⟨L, hEq, _, hGood⟩
    · rw [match_frame, hnil] at hmem
      exact absurd hmem (List.not_mem_nil _)
    · rw [match_frame, hEq] at hmem
      obtain ⟨times, paths, t, hlu, hnf, hd⟩ := hGood w p (by simpa using hmem)
      have ht : t = ref := by
        have h0 : |t - ref| ≤ 0 := le_trans hd htol
        have h1 : |t - ref| = 0 := le_antisymm h0 (abs_nonneg (t - ref))
        have h2 := abs_eq_zero.mp h1
        linarith
      exact ⟨times, paths, hlu, ht ▸ hnf⟩
  · intro w p
    have hnf : nearest_file ref [ref] [p] = some (ref, p) := by
      norm_num [nearest_file, candList, stableMin, bisect_left, bisectLoop]
    constructor
    · intro hne
      by_contra htne
      have htneg : tol < 0 := lt_of_le_of_ne htol htne
      exact hne (by simp [match_frame, matchLoop, hnf, sub_self, abs_zero, if_pos htneg])
    · intro h0
      subst h0
      simp [match_frame, matchLoop, hnf, sub_self, abs_zero]

/-- Witness for the amended claim C5 at a concrete input. -/
theorem nonpositive_tolerance_exact_match_witness :
    ((0 : ℚ) ≤ 0) ∧
    ((∀ ws w p, (w, p) ∈ match_frame (fun _ => some ([(5 : ℚ)], [9])) 0 5 ws →
      ∃ times paths, some ([(5 : ℚ)], [9]) = some (times, paths) ∧
        nearest_file 5 times paths = some (5, p)) ∧
    (∀ w p : ℕ, match_frame (fun _ => some ([(5 : ℚ)], [p])) 0 5 [w] ≠ [] ↔ (0 : ℚ) = 0)) :=
  ⟨le_refl 0, nonpositive_tolerance_exact_match (fun _ => some ([5], [9])) 0 5 (le_refl 0)⟩


/-- The only FITS-header field the combining core reads. -/
structure Header where
  exptime : Option ℚ

/-- The EXPTIME normalization step shared by `process_frame` in
`src/DEM/compute_dem_linear.py` (lines 304-318) and the calibrate branch of
`build_dem_for_event` in `src/DEM/dem_weighted_response.py` (lines
293-309): when normalization is requested, a missing header, a missing
EXPTIME entry, or a value `<= 0` raises `SystemExit` (modelled as an
error); otherwise the array is divided by the exposure time.
(`float(hdr.get("EXPTIME") or 0.0)` maps a present-but-falsy value to
`0.0`, which the `<= 0` check rejects all the same.) -/
def applyExptime (useExptime : Bool) (hdr : Option Header) (data : Vec) :
    Except String Vec :=
  if useExptime then
    match hdr with
    | none => Except.error "Missing FITS header for EXPTIME"
    | some h =>
      match h.exptime with
      | none => Except.error "EXPTIME not found in FITS header"
      | some e =>
        if e ≤ 0 then Except.error "Invalid EXPTIME"
        else Except.ok (divv data e)
  else Except.ok data

/-- One channel's calibration in the `calibrate` branch of
`build_dem_for_event` (`src/DEM/dem_weighted_response.py` lines 293-313):
EXPTIME normalization followed by the guarded response division — the
array is divided by `response_cache.get(w, 0.0)` only when that cached
value is strictly positive; a zero or negative value leaves the array
untouched and raises nothing.  The cache is a total function (the dict
default `0.0` for a missing channel is folded into it). -/
def calibrateChannel (useExptime : Bool) (respCache : Option (ℕ → ℚ)) (w : ℕ)
    (hdr : Option Header) (data : Vec) : Except String Vec :=
  match applyExptime useExptime hdr data with
  | Except.error e => Except.error e
  | Except.ok d =>
    match respCache with
    | none => Except.ok d
    | some cache => if 0 < cache w then Except.ok (divv d (cache w)) else Except.ok d

/-- The per-channel body of `process_frame` in `compute_dem_linear.py`
(lines 294-321): EXPTIME normalization (fatal on bad metadata) and the
optional clip of non-finite or non-positive pixels to zero (over exact
rationals every value is finite, so the clip keeps exactly the positive
entries). -/
def processChannels (useExptime clipInput : Bool) :
    List (Option Header × Vec) → Except String (List Vec)
  | [] => Except.ok []
  | (hdr, data) :: rest =>
    match applyExptime useExptime hdr data with
    | Except.error e => Except.error e
    | Except.ok d =>
      let dc := if clipInput then d.map (fun x => if 0 < x then x else 0) else d
      match processChannels useExptime clipInput rest with
      | Except.error e => Except.error e
      | Except.ok ds => Except.ok (dc :: ds)

/-- `np.sum(arrays, axis=0)`: elementwise sum of equally shaped arrays. -/
def sumArrays : List Vec → Vec
  | [] => []
  | a :: rest => rest.foldl addv a

/-- `np.tensordot(weights, stack, axes=(0, 0))`: the weighted linear
combination of the per-channel arrays. -/
def weightedSum (weights : List ℚ) (arrays : List Vec) : Vec :=
  sumArrays (List.zipWith smul weights arrays)

/-- One whole frame of `process_frame` (`compute_dem_linear.py` lines
292-328): calibrate every channel, stack, weight, and apply the optional
output rescale. -/
def process_frame (useExptime clipInput : Bool) (weights : List ℚ)
    (chans : List (Option Header × Vec)) (scale : ℚ) : Except String Vec :=
  match processChannels useExptime clipInput chans with
  | Except.error e => Except.error e
  | Except.ok arrays =>
    let dem := weightedSum weights arrays
    Except.ok (if scale = 1 then dem else smul scale dem)

/-- The serial frame loop of `compute_dem_linear.build_dem_for_event`: a
`SystemExit` raised inside any frame propagates and aborts the entire run
(with a worker pool the exception is re-raised in the parent when the
chunk's results are collected). -/
def runFrames (useExptime clipInput : Bool) (weights : List ℚ) (scale : ℚ) :
    List (List (Option Header × Vec)) → Except String (List Vec)
  | [] => Except.ok []
  | frame :: rest =>
    match process_frame useExptime clipInput weights frame scale with
    | Except.error e => Except.error e
    | Except.ok dem =>
      match runFrames useExptime clipInput weights scale rest with
      | Except.error e => Except.error e
      | Except.ok dems => Except.ok (dem :: dems)

/-- The per-channel loop of one frame of
`dem_weighted_response.build_dem_for_event` (lines 281-316): calibrate and
weight each channel's array.  Each entry carries (wavelength, weight,
header, data). -/
def responseChannels (useExptime : Bool) (respCache : Option (ℕ → ℚ)) :
    List (ℕ × ℚ × Option Header × Vec) → Except String (List Vec)
  | [] => Except.ok []
  | (w, weight, hdr, data) :: rest =>
    match calibrateChannel useExptime respCache w hdr data with
    | Except.error e => Except.error e
    | Except.ok d =>
      match responseChannels useExptime respCache rest with
      | Except.error e => Except.error e
      | Except.ok ds => Except.ok (smul weight d :: ds)

/-- The reference-frame loop of `dem_weighted_response.build_dem_for_event`
(lines 259-334): frames are processed in sequence and a raised `SystemExit`
aborts the whole run. -/
def runResponseFrames (useExptime : Bool) (respCache : Option (ℕ → ℚ)) :
    List (List (ℕ × ℚ × Option Header × Vec)) → Except String (List Vec)
  | [] => Except.ok []
  | frame :: rest =>
    match responseChannels useExptime respCache frame with
    | Except.error e => Except.error e
    | Except.ok arrays =>
      match runResponseFrames useExptime respCache rest with
      | Except.error e => Except.error e
      | Except.ok dems => Except.ok (sumArrays arrays :: dems)

/-- A frame's exposure metadata is fatal: header absent, EXPTIME entry
absent, or EXPTIME `<= 0`. -/
def badExptime : Option Header → Prop
  | none => True
  | some h =>
    match h.exptime with
    | none => True
    | some e => e ≤ 0

theorem applyExptime_bad (hdr : Option Header) (data : Vec)
    (hbad : badExptime hdr) : isErr (applyExptime true hdr data) = true := by
  cases hdr with
  | none => rfl
  | some h =>
    cases he : h.exptime with
    | none => simp [applyExptime, he, isErr]
    | some e =>
      have hle : e ≤ 0 := by simpa [badExptime, he] using hbad
      simp [applyExptime, he, if_pos hle, isErr]

theorem processChannels_bad (clipInput : Bool) :
    ∀ chans : List (Option Header × Vec),
      (∃ ch ∈ chans, badExptime ch.1) →
      isErr (processChannels true clipInput chans) = true := by
  intro chans
  induction chans with
  | nil => rintro ⟨ch, hch, _⟩; exact absurd hch (List.not_mem_nil ch)
  | cons c rest ih =>
    rintro ⟨ch, hch, hbad⟩
    obtain ⟨hdr, data⟩ := c
    rcases List.mem_cons.mp hch with rfl | hmem
    · cases happ : applyExptime true hdr data with
      | error e => simp [processChannels, happ, isErr]
      | ok d =>
        have := applyExptime_bad hdr data hbad
        rw [happ] at this
        exact absurd this (by simp [isErr])
    · cases happ : applyExptime true hdr data with
      | error e => simp [processChannels, happ, isErr]
      | ok d =>
        cases hrec : processChannels true clipInput rest with
        | error e => simp [processChannels, happ, hrec, isErr]
        | ok ds =>
          have := ih ⟨ch, hmem, hbad⟩
          rw [hrec] at this
          exact absurd this (by simp [isErr])

theorem runFrames_bad (clipInput : Bool) (weights : List ℚ) (scale : ℚ) :
    ∀ frames : List (List (Option Header × Vec)),
      (∃ frame ∈ frames, ∃ ch ∈ frame, badExptime ch.1) →
      isErr (runFrames true clipInput weights scale frames) = true := by
  intro frames
  induction frames with
  | nil => rintro ⟨f, hf, _⟩; exact absurd hf (List.not_mem_nil f)
  | cons frame rest ih =>
    rintro ⟨f, hf, hbadf⟩
    rcases List.mem_cons.mp hf with rfl | hmem
    · cases hpc : processChannels true clipInput f with
      | error e => simp [runFrames, process_frame, hpc, isErr]
      | ok arrays =>
        have := processChannels_bad clipInput f hbadf
        rw [hpc] at this
        exact absurd this (by simp [isErr])
    · cases hpf : process_frame true clipInput weights frame scale with
      | error e => simp [runFrames, hpf, isErr]
      | ok dem =>
        cases hrec : runFrames true clipInput weights scale rest with
        | error e => simp [runFrames, hpf, hrec, isErr]
        | ok dems =>
          have := ih ⟨f, hmem, hbadf⟩
          rw [hrec] at this
          exact absurd this (by simp [isErr])

theorem calibrateChannel_bad (respCache : Option (ℕ → ℚ)) (w : ℕ)
    (hdr : Option Header) (data : Vec) (hbad : badExptime hdr) :
    isErr (calibrateChannel true respCache w hdr data) = true := by
  cases happ : applyExptime true hdr data with
  | error e => simp [calibrateChannel, happ, isErr]
  | ok d =>
    have := applyExptime_bad hdr data hbad
    rw [happ] at this
    exact absurd this (by simp [isErr])

theorem responseChannels_bad (respCache : Option (ℕ → ℚ)) :
    ∀ chans : List (ℕ × ℚ × Option Header × Vec),
      (∃ ch ∈ chans, badExptime ch.2.2.1) →
      isErr (responseChannels true respCache chans) = true := by
  intro chans
  induction chans with
  | nil => rintro ⟨ch, hch, _⟩; exact absurd hch (List.not_mem_nil ch)
  | cons c rest ih =>
    rintro ⟨ch, hch, hbad⟩
    obtain ⟨w, weight, hdr, data⟩ := c
    rcases List.mem_cons.mp hch with rfl | hmem
    · cases hcc : calibrateChannel true respCache w hdr data with
      | error e => simp [responseChannels, hcc, isErr]
      | ok d =>
        have := calibrateChannel_bad respCache w hdr data hbad
        rw [hcc] at this
        exact absurd this (by simp [isErr])
    · cases hcc : calibrateChannel true respCache w hdr data with
      | error e => simp [responseChannels, hcc, isErr]
      | ok d =>
        cases hrec : responseChannels true respCache rest with
        | error e => simp [responseChannels, hcc, hrec, isErr]
        | ok ds =>
          have := ih ⟨ch, hmem, hbad⟩
          rw [hrec] at this
          exact absurd this (by simp [isErr])

theorem runResponseFrames_bad (respCache : Option (ℕ → ℚ)) :
    ∀ frames : List (List (ℕ × ℚ × Option Header × Vec)),
      (∃ frame ∈ frames, ∃ ch ∈ frame, badExptime ch.2.2.1) →
      isErr (runResponseFrames true respCache frames) = true := by
  intro frames
  induction frames with
  | nil => rintro ⟨f, hf, _⟩; exact absurd hf (List.not_mem_nil f)
  | cons frame rest ih =>
    rintro ⟨f, hf, hbadf⟩
    rcases List.mem_cons.mp hf with rfl | hmem
    · cases hpc : responseChannels true respCache f with
      | error e => simp [runResponseFrames, hpc, isErr]
      | ok arrays =>
        have := responseChannels_bad respCache f hbadf
        rw [hpc] at this
        exact absurd this (by simp [isErr])
    · cases hpc : responseChannels true respCache frame with
      | error e => simp [runResponseFrames, hpc, isErr]
      | ok arrays =>
        cases hrec : runResponseFrames true respCache rest with
        | error e => simp [runResponseFrames, hpc, hrec, isErr]
        | ok dems =>
          have := ih ⟨f, hmem, hbadf⟩
          rw [hrec] at this
          exact absurd this (by simp [isErr])

/-- Claim C9: when exposure normalization is requested, a frame whose
exposure scalar is missing (no header or no EXPTIME entry) or `<= 0` makes
the whole run abort with an error — not a per-frame skip — in both
frame-combining scripts that perform exposure normalization
(`compute_dem_linear.py` and `dem_weighted_response.py`). -/
theorem exptime_fatal_abort (clipInput : Bool) (weights : List ℚ) (scale : ℚ)
    (respCache : Option (ℕ → ℚ))
    (frames : List (List (Option Header × Vec)))
    (rframes : List (List (ℕ × ℚ × Option Header × Vec))) :
    ((∃ frame ∈ frames, ∃ ch ∈ frame, badExptime ch.1) →
      isErr (runFrames true clipInput weights scale frames) = true) ∧
    ((∃ frame ∈ rframes, ∃ ch ∈ frame, badExptime ch.2.2.1) →
      isErr (runResponseFrames true respCache rframes) = true) :=
  ⟨runFrames_bad clipInput weights scale frames,
    runResponseFrames_bad respCache rframes⟩

/-- Witness for claim C9 at a concrete input: one frame with one channel
whose header is absent. -/
theorem exptime_fatal_abort_witness :
    (∃ frame ∈ [[((none : Option Header), [(1 : ℚ)])]], ∃ ch ∈ frame, badExptime ch.1) ∧
    isErr (runFrames true false [1] 1 [[((none : Option Header), [(1 : ℚ)])]]) = true ∧
    isErr (runResponseFrames true none [[(0, (1 : ℚ), (none : Option Header), [(1 : ℚ)])]]) = true :=
  ⟨⟨_, List.mem_cons_self _ _, _, List.mem_cons_self _ _, trivial⟩,
    (exptime_fatal_abort false [1] 1 none [[((none : Option Header), [(1 : ℚ)])]]
        [[(0, (1 : ℚ), (none : Option Header), [(1 : ℚ)])]]).1
      ⟨_, List.mem_cons_self _ _, _, List.mem_cons_self _ _, trivial⟩,
    (exptime_fatal_abort false [1] 1 none [[((none : Option Header), [(1 : ℚ)])]]
        [[(0, (1 : ℚ), (none : Option Header), [(1 : ℚ)])]]).2
      ⟨_, List.mem_cons_self _ _, _, List.mem_cons_self _ _, trivial⟩⟩

/-- Claim C10: in the calibration path of the response-normalizing frame
combiner, the division by a channel's cached response value is guarded:
when the cached value is zero or negative the array is left undivided and
no error is raised (the result is exactly the EXPTIME-normalization
result), and the division happens exactly when the cached value is
strictly positive — so division by zero is unreachable. -/
theorem response_division_guarded (useExptime : Bool) (cache : ℕ → ℚ) (w : ℕ)
    (hdr : Option Header) (data : Vec) :
    (cache w ≤ 0 →
      calibrateChannel useExptime (some cache) w hdr data
        = applyExptime useExptime hdr data) ∧
    (0 < cache w →
      calibrateChannel useExptime (some cache) w hdr data
        = Except.map (fun d => divv d (cache w)) (applyExptime useExptime hdr data)) := by
  constructor
  · intro hle
    cases happ : applyExptime useExptime hdr data with
    | error e => simp [calibrateChannel, happ]
    | ok d => simp [calibrateChannel, happ, if_neg (not_lt.mpr hle)]
  · intro hpos
    cases happ : applyExptime useExptime hdr data with
    | error e => simp [calibrateChannel, happ, Except.map]
    | ok d => simp [calibrateChannel, happ, if_pos hpos, Except.map]

/-- Witness for claim C10 at concrete inputs: a zero cached response leaves
the array untouched; a positive cached response divides it. -/
theorem response_division_guarded_witness :
    ((0 : ℚ) ≤ 0 ∧
      calibrateChannel false (some (fun _ => 0)) 0 none [3]
        = applyExptime false none [3]) ∧
    ((0 : ℚ) < 2 ∧
      calibrateChannel false (some (fun _ => 2)) 0 none [3]
        = Except.map (fun d => divv d 2) (applyExptime false none [3])) :=
  ⟨⟨le_refl 0, (response_division_guarded false (fun _ => 0) 0 none [3]).1 (le_refl 0)⟩,
    ⟨by norm_num, (response_division_guarded false (fun _ => 2) 0 none [3]).2 (by norm_num)⟩⟩


/-- Text lines are modelled as character lists. -/
abbrev Line := List Char

/-- Python `str.startswith` (first argument is the prefix). -/
def startsWithL : Line → Line → Bool
  | [], _ => true
  | _ :: _, [] => false
  | p :: ps, c :: cs => p == c && startsWithL ps cs

/-- Python `str.split(",")`: split at every comma, keeping empty pieces. -/
def splitComma : Line → List Line
  | [] => [[]]
  | c :: rest =>
    match splitComma rest with
    | h :: t => if c = ',' then [] :: h :: t else (c :: h) :: t
    | [] => [[c]]

/-- The whitespace characters Python's default `strip` removes (the forms
this pipeline can actually emit). -/
def isSpaceChar (c : Char) : Bool :=
  c == ' ' || c == '\t' || c == '\n' || c == '\r'

/-- Python `str.strip()`. -/
def trimL (s : Line) : Line :=
  ((s.dropWhile isSpaceChar).reverse.dropWhile isSpaceChar).reverse

/-- Python `str.isdigit`: nonempty and all decimal digits. -/
def isDigitsL (s : Line) : Bool := !s.isEmpty && s.all Char.isDigit

/-- Numeric value of a decimal digit string. -/
def digitsVal (s : Line) : ℕ := s.foldl (fun acc c => acc * 10 + (c.toNat - 48)) 0

/-- Python `int(s)`: strip, optional sign, decimal digits; `None` models the
raised `ValueError` (exotic accepted forms such as underscores are not
modelled — the pipeline never produces them). -/
def pyInt? (s : Line) : Option ℤ :=
  match trimL s with
  | '-' :: ds => if isDigitsL ds then some (-(digitsVal ds : ℤ)) else none
  | '+' :: ds => if isDigitsL ds then some ((digitsVal ds : ℤ)) else none
  | ds => if isDigitsL ds then some ((digitsVal ds : ℤ)) else none

/-- Optional leading sign: returns (is-negative, rest). -/
def splitSignL : Line → Bool × Line
  | '-' :: rest => (true, rest)
  | '+' :: rest => (false, rest)
  | s => (false, s)

/-- Python `float(s)` on decimal/scientific literals, with the exact
rational value of the literal (the binary-float rounding of the source is
idealized away, as is `inf`/`nan`, which the pipeline never feeds it);
`None` models the raised `ValueError`. -/
def pyFloat? (s : Line) : Option ℚ :=
  let t := trimL s
  let sg := splitSignL t
  let ip := sg.2.takeWhile Char.isDigit
  let r1 := sg.2.dropWhile Char.isDigit
  let fr :=
    match r1 with
    | '.' :: rest => (rest.takeWhile Char.isDigit, rest.dropWhile Char.isDigit)
    | _ => (([] : Line), r1)
  if ip.isEmpty && fr.1.isEmpty then none
  else
    let mant : ℚ :=
      ((digitsVal ip * 10 ^ fr.1.length + digitsVal fr.1 : ℕ) : ℚ)
        / ((10 ^ fr.1.length : ℕ) : ℚ)
    let signed := if sg.1 then -mant else mant
    match fr.2 with
    | [] => some signed
    | e :: rest =>
      if e == 'e' || e == 'E' then
        let esg := splitSignL rest
        let ed := esg.2.takeWhile Char.isDigit
        let r4 := esg.2.dropWhile Char.isDigit
        if ed.isEmpty || !r4.isEmpty then none
        else
          some (signed *
            (if esg.1 then 1 / ((10 ^ digitsVal ed : ℕ) : ℚ)
             else ((10 ^ digitsVal ed : ℕ) : ℚ)))
      else none

/-- Python `line.split("=", 1)[1]` for a line known to contain `=`. -/
def afterFirstEq (s : Line) : Line := (s.dropWhile (fun c => !(c == '='))).drop 1

/-- Literal keyword prefixes of the weight-file formats, as character
lists (text lines are modelled as `List Char`). -/
def kwHash : Line := ['#']

def kwLogtEq : Line := ['l', 'o', 'g', 't', '=']

def kwDeltaUnd : Line := ['d', 'e', 'l', 't', 'a', '_']

def kwDeltaLogtEq : Line := ['d', 'e', 'l', 't', 'a', '_', 'l', 'o', 'g', 't', '=']

def kwDemPerLogtEq : Line := ['d', 'e', 'm', '_', 'p', 'e', 'r', '_', 'l', 'o', 'g', 't', '=']

def kwRidgeEq : Line := ['r', 'i', 'd', 'g', 'e', '=']

def kwScaleEq : Line := ['s', 'c', 'a', 'l', 'e', '=']

def kwChannelsWeights : Line := ['c', 'h', 'a', 'n', 'n', 'e', 'l', 's', ',', 'w', 'e', 'i', 'g', 'h', 't', 's']

def kwLogtListEq : Line := ['l', 'o', 'g', 't', '_', 'l', 'i', 's', 't', '=']

def kwChannelsEq : Line := ['c', 'h', 'a', 'n', 'n', 'e', 'l', 's', '=']

def kwLogtChannelWeight : Line := ['l', 'o', 'g', 't', ',', 'c', 'h', 'a', 'n', 'n', 'e', 'l', ',', 'w', 'e', 'i', 'g', 'h', 't']

/-- One line of `load_weights_file` in `src/DEM/compute_dem_linear.py`
(lines 159-179), folded over the accumulated `(channels, weights)` pair:
metadata prefixes are skipped, only two-field lines are considered, and —
mirroring the source's `try` block — `int(parts[0])` is appended *before*
`float(parts[1])` is evaluated, so a line whose first field parses but
whose second does not leaves an unmatched channel behind (the final length
check then fails the file). -/
def linearLine (acc : List ℤ × List ℚ) (line : Line) : List ℤ × List ℚ :=
  if line.isEmpty || startsWithL kwHash line || startsWithL kwLogtEq line
      || startsWithL kwDeltaUnd line then acc
  else if startsWithL kwDemPerLogtEq line || startsWithL kwRidgeEq line
      || startsWithL kwScaleEq line then acc
  else if startsWithL kwChannelsWeights line then acc
  else
    let parts := (splitComma line).map trimL
    if parts.length ≠ 2 then acc
    else
      match pyInt? (parts.getD 0 []) with
      | none => acc
      | some ch =>
        match pyFloat? (parts.getD 1 []) with
        | none => (acc.1 ++ [ch], acc.2)
        | some wv => (acc.1 ++ [ch], acc.2 ++ [wv])

/-- `load_weights_file` from `src/DEM/compute_dem_linear.py` (lines
159-179): the two-column `channel,weight` reader; raises when no rows
parsed or the channel and weight counts differ. -/
def load_weights_file_linear (lines : List Line) : Except String (List ℤ × List ℚ) :=
  let res := lines.foldl linearLine ([], [])
  if res.1.isEmpty || res.2.isEmpty || res.1.length ≠ res.2.length then
    Except.error "No weights found"
  else Except.ok res

/-- The accumulated state of `load_weights_file` in
`src/DEM/test_response_ratio.py` (lines 85-126): metadata channel and bin
lists, the single-layout weights, the multi-layout rows and the file-level
logT. -/
structure WFState where
  channels : List ℤ
  logtList : List ℚ
  singles : List ℚ
  multiRows : List (ℚ × ℤ × ℚ)
  fileLogt : Option ℚ

/-- One line of `load_weights_file` in `src/DEM/test_response_ratio.py`
(lines 92-125).  The `logt_list=` and `channels=` metadata parses are *not*
wrapped in `try`, so a malformed value there raises out of the parser
(hence the `Except`); the `logt=` parse and the data-row parses swallow
their `ValueError` and skip the line. -/
def ratioParserLine (st : WFState) (line0 : Line) : Except String WFState :=
  let line := trimL line0
  if line.isEmpty || startsWithL kwHash line then Except.ok st
  else if startsWithL kwLogtListEq line then
    match ((splitComma (afterFirstEq line)).filter (fun v => !v.isEmpty)).mapM pyFloat? with
    | none => Except.error "invalid float in logt_list"
    | some vs => Except.ok { st with logtList := vs }
  else if startsWithL kwLogtEq line then
    match pyFloat? (trimL (afterFirstEq line)) with
    | none => Except.ok st
    | some v => Except.ok { st with fileLogt := some v }
  else if startsWithL kwChannelsEq line then
    match ((splitComma (afterFirstEq line)).filter (fun v => !v.isEmpty)).mapM pyInt? with
    | none => Except.error "invalid int in channels"
    | some cs => Except.ok { st with channels := cs }
  else if startsWithL kwChannelsWeights line then Except.ok st
  else if startsWithL kwLogtChannelWeight line then Except.ok st
  else if startsWithL kwDeltaLogtEq line || startsWithL kwDemPerLogtEq line
      || startsWithL kwRidgeEq line || startsWithL kwScaleEq line then Except.ok st
  else
    let parts := (splitComma line).map trimL
    if parts.length = 2 && isDigitsL (parts.getD 0 []) then
      match pyFloat? (parts.getD 1 []) with
      | none => Except.ok st
      | some w => Except.ok { st with singles := st.singles ++ [w] }
    else if parts.length = 3 then
      match pyFloat? (parts.getD 0 []), pyInt? (parts.getD 1 []),
          pyFloat? (parts.getD 2 []) with
      | some lt, some ch, some w =>
        Except.ok { st with multiRows := st.multiRows ++ [(lt, ch, w)] }
      | _, _, _ => Except.ok st
    else Except.ok st

/-- `sorted({...})` over rationals: sorted distinct values. -/
def sortedDedup (l : List ℚ) : List ℚ := (l.dedup).insertionSort (· ≤ ·)

/-- `sorted({...})` over channel integers. -/
def sortedDedupZ (l : List ℤ) : List ℤ := (l.dedup).insertionSort (· ≤ ·)

/-- The `ch_index` dict `{ch: i for i, ch in enumerate(channels)}`: a
duplicated channel keeps its *last* index. -/
def chIndexOf (chs : List ℤ) (ch : ℤ) : Option ℕ :=
  match (chs.reverse).findIdx? (fun c => c == ch) with
  | none => none
  | some j => some (chs.length - 1 - j)

/-- One multi-row update `weights_by_logt[lt][ch_index[ch]] = w`, applied
only when both the bin and the channel are known. -/
def setWeight (chs : List ℤ) (table : List (ℚ × List ℚ)) (row : ℚ × ℤ × ℚ) :
    List (ℚ × List ℚ) :=
  table.map (fun p =>
    if p.1 = row.1 then
      match chIndexOf chs row.2.1 with
      | some i => (p.1, p.2.set i row.2.2)
      | none => p
    else p)

/-- The assembly stage of `load_weights_file` in `test_response_ratio.py`
(lines 127-149): multi rows win over singles; channel and bin sets fall
back to the sorted distinct values found in the data rows; the single
layout demands an explicit channels list of matching length. -/
def assembleWeights (st : WFState) : Except String (List ℤ × List (ℚ × List ℚ)) :=
  if !st.multiRows.isEmpty then
    let chs := if st.channels.isEmpty
      then sortedDedupZ (st.multiRows.map (fun r => r.2.1)) else st.channels
    let lts := if st.logtList.isEmpty
      then sortedDedup (st.multiRows.map (fun r => r.1)) else st.logtList
    let table0 := lts.map (fun lt => (lt, List.replicate chs.length (0 : ℚ)))
    Except.ok (chs, st.multiRows.foldl (setWeight chs) table0)
  else if !st.singles.isEmpty then
    if st.channels.isEmpty then Except.error "Weights file missing channels list"
    else if st.singles.length ≠ st.channels.length then
      Except.error "Weights count does not match channels"
    else Except.ok (st.channels, [(st.fileLogt.getD 0, st.singles)])
  else Except.error "No weights found"

/-- `load_weights_file` from `src/DEM/test_response_ratio.py` (lines
85-149): line fold followed by assembly. -/
def load_weights_file_ratio (lines : List Line) :
    Except String (List ℤ × List (ℚ × List ℚ)) :=
  match lines.foldlM ratioParserLine ⟨[], [], [], [], none⟩ with
  | Except.error e => Except.error e
  | Except.ok st => assembleWeights st

/-- A saved multi-bin table header line, `logt,channel,weight`. -/
def lineMultiHeader : Line := ['l', 'o', 'g', 't', ',', 'c', 'h', 'a', 'n', 'n', 'e', 'l', ',', 'w', 'e', 'i', 'g', 'h', 't']

/-- A saved multi-bin data row, `6.5,94,2.0`. -/
def lineMultiRow : Line := ['6', '.', '5', ',', '9', '4', ',', '2', '.', '0']

/-- A saved two-column data row, `94,2.0`. -/
def lineTwoColA : Line := ['9', '4', ',', '2', '.', '0']

/-- A saved two-column data row, `131,3.0`. -/
def lineTwoColB : Line := ['1', '3', '1', ',', '3', '.', '0']

/-- Claim C7, counterexample to the original statement: the weight-file
reader in `compute_dem_linear.py` does not accept the three-column
`logt,channel,weight` layout — on a well-formed multi-bin table every row
is skipped by the two-field filter and it raises "No weights found" — and
the reader in `test_response_ratio.py` does not infer the channel set for
the two-column layout: without a `channels=` metadata line it raises
"Weights file missing channels list". -/
theorem weights_parser_counterexample :
    isErr (load_weights_file_linear [lineMultiHeader, lineMultiRow]) = true ∧
    isErr (load_weights_file_ratio [lineTwoColA]) = true :=
  ⟨by decide, by decide⟩

/-- Claim C7 (amended): only the multi-bin reader of
`test_response_ratio.py` accepts both layouts.  Assembly of a table with
three-column data rows always succeeds and infers the channel set (the
sorted distinct data channels) when the channels metadata is absent, and
its two-column path fails without an explicit channels metadata line; the
single-bin reader of `compute_dem_linear.py` accepts only the two-column
layout, rejecting a three-column table with an error. -/
theorem weights_parser_layouts :
    (∀ st : WFState, st.multiRows.isEmpty = false →
      ∃ tbl, assembleWeights st = Except.ok
        ((if st.channels.isEmpty then sortedDedupZ (st.multiRows.map (fun r => r.2.1))
          else st.channels), tbl)) ∧
    (∀ st : WFState, st.multiRows.isEmpty = true → st.singles.isEmpty = false →
      st.channels.isEmpty = true → isErr (assembleWeights st) = true) ∧
    load_weights_file_ratio [lineMultiHeader, lineMultiRow]
      = Except.ok ([94], [(13 / 2, [2])]) ∧
    load_weights_file_linear [lineTwoColA, lineTwoColB] = Except.ok ([94, 131], [2, 3]) ∧
    isErr (load_weights_file_linear [lineMultiHeader, lineMultiRow]) = true := by
  refine ⟨?_, ?_, ?_, ?_, by decide⟩
  · intro st hm
    simp only [assembleWeights, hm, Bool.not_false, if_true]
    exact ⟨_, rfl⟩
  · intro st hmr hs hc
    simp [assembleWeights, hmr, hs, hc, isErr]
  · simp +decide [load_weights_file_ratio, ratioParserLine, assembleWeights, startsWithL,
      splitComma, trimL, isSpaceChar, isDigitsL, digitsVal, pyInt?, pyFloat?, splitSignL,
      afterFirstEq, kwHash, kwLogtEq, kwDeltaUnd, kwDeltaLogtEq, kwDemPerLogtEq, kwRidgeEq,
      kwScaleEq, kwChannelsWeights, kwLogtListEq, kwChannelsEq, kwLogtChannelWeight,
      sortedDedup, sortedDedupZ, chIndexOf, setWeight, List.dropWhile, List.takeWhile,
      List.insertionSort, List.orderedInsert, List.dedup, List.pwFilter, List.foldlM,
      bind, Except.bind, pure, Except.pure, lineMultiHeader, lineMultiRow]
    norm_num
  · simp +decide [load_weights_file_linear, linearLine, startsWithL, splitComma, trimL,
      isSpaceChar, isDigitsL, digitsVal, pyInt?, pyFloat?, splitSignL, kwHash, kwLogtEq,
      kwDeltaUnd, kwDemPerLogtEq, kwRidgeEq, kwScaleEq, kwChannelsWeights,
      List.dropWhile, List.takeWhile, lineTwoColA, lineTwoColB]
    norm_num

/-- Witness for the amended claim C7 at a concrete state: one multi row,
no channels metadata, channel set inferred. -/
theorem weights_parser_layouts_witness :
    (WFState.mk [] [] [] [(1, 94, 2)] none).multiRows.isEmpty = false ∧
    (∃ tbl, assembleWeights (WFState.mk [] [] [] [(1, 94, 2)] none)
      = Except.ok (sortedDedupZ [94], tbl)) :=
  ⟨rfl, weights_parser_layouts.1 (WFState.mk [] [] [] [(1, 94, 2)] none) rfl⟩

end Pocky
